import Mathlib

/-!
Verification of the GoPhotonics lead-consolidation pipeline
(`gophotonics_leads_selenium.py`): the row normalizer, the consolidation
ledger (`consolidate_leads`), and the retention sweeper
(`cleanup_old_files`), shallowly embedded as executable Lean functions.

Conventions of the embedding:
* a spreadsheet cell is `Option String`; `none` models a pandas `NaN`/null,
  `some s` a textual value (matching `safe_str`, which maps both `NaN` and
  whitespace to a trimmed string);
* a raw row is an association list from column label to cell, mirroring a
  pandas `Series` (`row.get label dflt` returns the stored value — possibly
  `NaN` — whenever the label is present, and the default only when the label
  is absent);
* `pd.to_datetime(..., errors="coerce")` is modelled by `parseDate`, an
  ISO `YYYY-MM-DD [HH:MM:SS]` reader returning `none` (NaT) on any other
  input and a strictly monotone `Nat` timestamp otherwise;
* `DataFrame.drop_duplicates(subset=[...], keep="first")` is modelled by a
  first-seen key scan (`dropDupAux`), exactly pandas' hash-table semantics;
* `DataFrame.sort_values("date_parsed", ascending=False)` is modelled after
  pandas `nargsort`: NaT rows are removed before the comparison sort and
  appended afterwards in their original order (so their relative order never
  depends on the sort kind), and the comparison sort on the non-NaT rows is
  modelled as a stable descending sort — one admissible refinement of the
  step's contract, since the default `kind="quicksort"` is documented as not
  stable.  `SortValuesAdmissible` states the contract itself, and no order
  property inside a group of equal parsed dates is claimed beyond that
  contract.
-/

/-- The canonical lead record built by `consolidate_leads` (one dict of the
`normalized_data` list): thirteen string fields. -/
structure Lead where
  email : String
  name : String
  company : String
  phone : String
  country : String
  state : String
  city : String
  address : String
  date : String
  resource : String
  source_type : String
  source_file : String
  imported_at : String
deriving DecidableEq, Repr

/-- A raw spreadsheet row: column label to cell, `none` modelling `NaN`. -/
abbrev Row := List (String × Option String)

/-- Whitespace test used by Python's `str.strip()`. -/
def wsChar (c : Char) : Bool :=
  c.isWhitespace

/-- Python's `str.strip()` on a character list: drop whitespace from both
ends. -/
def trimChars (l : List Char) : List Char :=
  ((l.dropWhile wsChar).reverse.dropWhile wsChar).reverse

/-- Python's `str.strip()`. -/
def pyStrip (s : String) : String :=
  ⟨trimChars s.data⟩

/-- `safe_str` from the source: `NaN`/null becomes `""`, anything else is
converted to a string and whitespace-trimmed. -/
def safe_str : Option String → String
  | none => ""
  | some s => pyStrip s

/-- Split a character list on a separator character; mirrors Python's
`str.split(sep)` for a one-character separator (an empty input yields one
empty field). -/
def splitCharAux (c : Char) : List Char → List Char → List (List Char)
  | [], acc => [acc.reverse]
  | x :: xs, acc =>
    if x = c then acc.reverse :: splitCharAux c xs []
    else splitCharAux c xs (x :: acc)

/-- `s.split(c)` for a one-character separator. -/
def splitChar (c : Char) (l : List Char) : List (List Char) :=
  splitCharAux c l []

/-- Read a non-empty all-digit character list as a decimal number. -/
def digitsToNat (l : List Char) : Option Nat :=
  if l.isEmpty then none
  else l.foldl
    (fun acc c =>
      match acc with
      | none => none
      | some n => if c.isDigit then some (n * 10 + (c.toNat - 48)) else none)
    (some 0)

/-- `row.get(label, dflt)` on a pandas `Series`: the stored cell (possibly
`NaN`) when the label is present, the default otherwise. -/
def rowGet (row : Row) (label : String) (dflt : Option String) : Option String :=
  match row.lookup label with
  | some v => v
  | none => dflt

/-- `safe_str(row.get("User Email", row.get("email", "")))`. -/
def resolveEmail (row : Row) : String :=
  safe_str (rowGet row "User Email" (rowGet row "email" (some "")))

/-- `safe_str(row.get("User Name", row.get("name", "")))`. -/
def resolveName (row : Row) : String :=
  safe_str (rowGet row "User Name" (rowGet row "name" (some "")))

/-- `safe_str(row.get("User Company", row.get("company", "")))`. -/
def resolveCompany (row : Row) : String :=
  safe_str (rowGet row "User Company" (rowGet row "company" (some "")))

/-- `safe_str(row.get("User Telephone", row.get("telephone", row.get("phone", ""))))`. -/
def resolvePhone (row : Row) : String :=
  safe_str (rowGet row "User Telephone" (rowGet row "telephone" (rowGet row "phone" (some ""))))

/-- `safe_str(row.get("User Country", row.get("country", "")))`. -/
def resolveCountry (row : Row) : String :=
  safe_str (rowGet row "User Country" (rowGet row "country" (some "")))

/-- `safe_str(row.get("User State", row.get("state", "")))`. -/
def resolveState (row : Row) : String :=
  safe_str (rowGet row "User State" (rowGet row "state" (some "")))

/-- `safe_str(row.get("User City", row.get("city", "")))`. -/
def resolveCity (row : Row) : String :=
  safe_str (rowGet row "User City" (rowGet row "city" (some "")))

/-- `safe_str(row.get("User Address", row.get("address", "")))`. -/
def resolveAddress (row : Row) : String :=
  safe_str (rowGet row "User Address" (rowGet row "address" (some "")))

/-- `safe_str(row.get("Downloaded On", row.get("downloaded_on", "")))`. -/
def resolveDate (row : Row) : String :=
  safe_str (rowGet row "Downloaded On" (rowGet row "downloaded_on" (some "")))

/-- The resource branch of the normalizer: `Part Number` when that column is
present, else `White Paper Title`, else the last `/`-segment of
`Product Url`, else `""`.  Presence tests mirror Python's
`"Part Number" in row` on a `Series`, which checks the index only. -/
def resolveResource (row : Row) : String :=
  if (row.lookup "Part Number").isSome then
    safe_str (rowGet row "Part Number" (some ""))
  else if (row.lookup "White Paper Title").isSome then
    safe_str (rowGet row "White Paper Title" (some ""))
  else if (row.lookup "Product Url").isSome then
    let url := safe_str (rowGet row "Product Url" (some ""))
    if url = "" then "" else ⟨(splitChar '/' url.data).getLastD []⟩
  else ""

/-- Case-insensitive substring test: Python's `needle in hay.lower()` for a
lowercase literal `needle`. -/
def lowerContains (hay needle : String) : Bool :=
  decide (needle.data <:+: hay.data.map Char.toLower)

/-- The source-type chain of `consolidate_leads` (applied to the file stem):
first match wins among datasheet / whitepaper / quotation / inquiry-contact,
default `Other`. -/
def classifySourceType (stem : String) : String :=
  if lowerContains stem "datasheet" || lowerContains stem "data_sheet" then "Datasheet"
  else if lowerContains stem "whitepaper" then "Whitepaper"
  else if lowerContains stem "quotation" then "Quotation"
  else if lowerContains stem "inquiry" || lowerContains stem "contact" then "Contact Inquiry"
  else "Other"

/-- One iteration of the per-row normalization loop: build the `lead` dict
for a row, given the file-derived source type, the file name and the
wall-clock `imported_at` string read at normalization time. -/
def normalizeRow (st sf ts : String) (row : Row) : Lead :=
  { email := resolveEmail row
    name := resolveName row
    company := resolveCompany row
    phone := resolvePhone row
    country := resolveCountry row
    state := resolveState row
    city := resolveCity row
    address := resolveAddress row
    date := resolveDate row
    resource := resolveResource row
    source_type := st
    source_file := sf
    imported_at := ts }

/-- The normalizer for one CSV file (`stem` is the file name without
extension, `sf` the full file name): every row becomes a lead tagged with
`classifySourceType stem`, and rows whose resolved email is empty are not
appended to `normalized_data`. -/
def normalizeFile (stem sf ts : String) (rows : List Row) : List Lead :=
  (rows.map (normalizeRow (classifySourceType stem) sf ts)).filter
    (fun l => l.email ≠ "")

/-- Clock part of `parseDate`: a strict `HH:MM:SS` reader, in seconds. -/
def parseClock (t : List Char) : Option Nat :=
  match splitChar ':' t with
  | [h, m, s] =>
    match digitsToNat h, digitsToNat m, digitsToNat s with
    | some hv, some mv, some sv =>
      if h.length = 2 ∧ m.length = 2 ∧ s.length = 2 ∧ hv < 24 ∧ mv < 60 ∧ sv < 60 then
        some (hv * 3600 + mv * 60 + sv)
      else none
    | _, _, _ => none
  | _ => none

/-- Calendar part of `parseDate`: a strict `YYYY-MM-DD` reader, mapped to a
strictly monotone day index. -/
def parseYmd (d : List Char) : Option Nat :=
  match splitChar '-' d with
  | [y, m, dd] =>
    match digitsToNat y, digitsToNat m, digitsToNat dd with
    | some yv, some mv, some dv =>
      if y.length = 4 ∧ m.length = 2 ∧ dd.length = 2 ∧ 1 ≤ mv ∧ mv ≤ 12 ∧ 1 ≤ dv ∧ dv ≤ 31 then
        some ((yv * 13 + mv) * 32 + dv)
      else none
    | _, _, _ => none
  | _ => none

/-- Model of `pd.to_datetime(s, errors="coerce")` restricted to the ISO
shapes `YYYY-MM-DD` and `YYYY-MM-DD HH:MM:SS` that the pipeline's `date`
strings take; any other input is NaT (`none`).  The result is a strictly
monotone timestamp in seconds, so that comparisons agree with time order. -/
def parseDate (s : String) : Option Nat :=
  match splitChar ' ' s.data with
  | [d] => (parseYmd d).map (fun n => n * 86400)
  | [d, t] =>
    match parseYmd d, parseClock t with
    | some n, some c => some (n * 86400 + c)
    | _, _ => none
  | _ => none

/-- The dedup key of `drop_duplicates(subset=["email", "date", "resource"])`:
the raw string triple — the `date` string itself, not its parse. -/
def leadKey (l : Lead) : String × String × String :=
  (l.email, l.date, l.resource)

/-- First-seen scan behind `drop_duplicates(keep="first")`: a row is kept
exactly when its key has not been seen before, and then its key is added to
the seen set. -/
def dropDupAux (seen : List (String × String × String)) : List Lead → List Lead
  | [] => []
  | x :: xs =>
    if leadKey x ∈ seen then dropDupAux seen xs
    else x :: dropDupAux (leadKey x :: seen) xs

/-- `combined_df.drop_duplicates(subset=["email", "date", "resource"], keep="first")`. -/
def dropDuplicatesFirst (l : List Lead) : List Lead :=
  dropDupAux [] l

/-- Sort value of a record whose date parses (only used on such records). -/
def dateVal (l : Lead) : Nat :=
  (parseDate l.date).getD 0

/-- Whether the record's `date` string parses (`date_parsed` is not NaT). -/
def hasDate (l : Lead) : Bool :=
  (parseDate l.date).isSome

/-- Descending-by-parsed-date ordering on records whose date parses. -/
def descRel (a b : Lead) : Prop :=
  dateVal b ≤ dateVal a

instance : DecidableRel descRel :=
  fun a b => inferInstanceAs (Decidable (dateVal b ≤ dateVal a))

instance : IsTotal Lead descRel :=
  ⟨fun a b => Nat.le_total (dateVal b) (dateVal a)⟩

instance : IsTrans Lead descRel :=
  ⟨fun _ _ _ hab hbc => Nat.le_trans hbc hab⟩

/-- `combined_df.sort_values("date_parsed", ascending=False)` following
pandas `nargsort`: NaT rows are split off before the comparison sort and
appended at the end in their original order (`na_position="last"`), and the
non-NaT rows are sorted descending by parsed date.  The comparison sort is
modelled as a stable descending sort, which is one admissible refinement of
the step's contract: the default `kind="quicksort"` is documented by pandas
as not stable, so the program fixes no particular arrangement inside a
group of equal parsed dates — `SortValuesAdmissible` below captures exactly
what the sort step guarantees, and order claims among tied parseable rows
are made only against that contract. -/
def sortByDateDesc (l : List Lead) : List Lead :=
  (l.filter hasDate).insertionSort descRel ++ l.filter (fun x => !hasDate x)

/-- Lines 334-353 of `consolidate_leads`: concatenate the existing master
records with the freshly normalized leads (existing first), deduplicate by
`(email, date, resource)` keeping the first occurrence, then sort by parsed
date, most recent first. -/
def mergeLeads (master newLeads : List Lead) : List Lead :=
  sortByDateDesc (dropDuplicatesFirst (master ++ newLeads))

/-- Observable outcome of one `consolidate_leads` run: the records the
master file holds afterwards, and whether the file was rewritten. -/
structure ConsolidateOutcome where
  records : List Lead
  rewritten : Bool
deriving DecidableEq, Repr

/-- Lines 326-356 of `consolidate_leads`, after normalization: when
`all_leads` is empty the function returns before `to_csv`, so the master
file is not rewritten; otherwise the merge result is written out. -/
def consolidate_leads (master allLeads : List Lead) : ConsolidateOutcome :=
  if allLeads.isEmpty then { records := master, rewritten := false }
  else { records := mergeLeads master allLeads, rewritten := true }

/-- A file in the download directory: its name and last-modified time in
seconds. -/
structure FileEntry where
  fname : String
  mtime : Nat
deriving DecidableEq, Repr

/-- `cleanup_old_files`: walk the directory entries; a file strictly older
than the cutoff is unlinked and counted.  `unlinkOk` models whether
`file_path.unlink()` succeeds; the loop body has no exception handler, so a
failed unlink propagates: the failing file and every file after it are left
untouched.  Returns (surviving files, `removed_count`, aborted flag). -/
def cleanup_old_files (cutoff : Nat) (unlinkOk : FileEntry → Bool) :
    List FileEntry → List FileEntry × Nat × Bool
  | [] => ([], 0, false)
  | f :: fs =>
    if f.mtime < cutoff then
      if unlinkOk f then
        let r := cleanup_old_files cutoff unlinkOk fs
        (r.1, r.2.1 + 1, r.2.2)
      else (f :: fs, 0, true)
    else
      let r := cleanup_old_files cutoff unlinkOk fs
      (f :: r.1, r.2.1, r.2.2)

/-! ### Properties of the first-seen deduplication scan -/

/-- The scan only removes rows: its output is a sublist of its input. -/
theorem dropDupAux_sublist (seen : List (String × String × String)) (l : List Lead) :
    (dropDupAux seen l).Sublist l := by
  induction l generalizing seen with
  | nil => simp [dropDupAux]
  | cons y ys ih =>
    simp only [dropDupAux]
    by_cases h : leadKey y ∈ seen
    · rw [if_pos h]
      exact (ih seen).cons y
    · rw [if_neg h]
      exact (ih (leadKey y :: seen)).cons₂ y

/-- No kept row carries a key that was already in the seen set. -/
theorem key_not_seen_of_mem_dropDupAux {seen : List (String × String × String)}
    {l : List Lead} {x : Lead} (hx : x ∈ dropDupAux seen l) : leadKey x ∉ seen := by
  induction l generalizing seen with
  | nil => simp [dropDupAux] at hx
  | cons y ys ih =>
    simp only [dropDupAux] at hx
    by_cases h : leadKey y ∈ seen
    · rw [if_pos h] at hx
      exact ih hx
    · rw [if_neg h] at hx
      rcases List.mem_cons.mp hx with h1 | h1
      · subst h1
        exact h
      · intro hm
        exact ih h1 (List.mem_cons_of_mem _ hm)

/-- Keys are pairwise distinct in the scan's output. -/
theorem keys_dropDupAux_nodup (seen : List (String × String × String)) (l : List Lead) :
    ((dropDupAux seen l).map leadKey).Nodup := by
  induction l generalizing seen with
  | nil => simp [dropDupAux]
  | cons y ys ih =>
    simp only [dropDupAux]
    by_cases h : leadKey y ∈ seen
    · rw [if_pos h]
      exact ih seen
    · rw [if_neg h]
      simp only [List.map_cons, List.nodup_cons]
      refine ⟨?_, ih (leadKey y :: seen)⟩
      intro hmem
      rcases List.mem_map.mp hmem with ⟨z, hz, hkz⟩
      exact key_not_seen_of_mem_dropDupAux hz (by rw [hkz]; exact List.mem_cons_self _ _)

/-- A kept row is the first row of its key in the input. -/
theorem find?_of_mem_dropDupAux {seen : List (String × String × String)}
    {l : List Lead} {x : Lead} (hx : x ∈ dropDupAux seen l) :
    l.find? (fun z => decide (leadKey z = leadKey x)) = some x := by
  induction l generalizing seen with
  | nil => simp [dropDupAux] at hx
  | cons y ys ih =>
    simp only [dropDupAux] at hx
    by_cases h : leadKey y ∈ seen
    · rw [if_pos h] at hx
      have hne : ¬ leadKey y = leadKey x := fun he =>
        key_not_seen_of_mem_dropDupAux hx (he ▸ h)
      rw [List.find?_cons_of_neg _ (by simpa using hne)]
      exact ih hx
    · rw [if_neg h] at hx
      rcases List.mem_cons.mp hx with h1 | h1
      · subst h1
        exact List.find?_cons_of_pos _ (by simp)
      · have hxk := key_not_seen_of_mem_dropDupAux h1
        have hne : ¬ leadKey y = leadKey x := fun he =>
          hxk (by rw [← he]; exact List.mem_cons_self _ _)
        rw [List.find?_cons_of_neg _ (by simpa using hne)]
        exact ih h1

/-- Every input key that is not already seen is represented in the output. -/
theorem exists_key_dropDupAux {seen : List (String × String × String)}
    {l : List Lead} {k : String × String × String}
    (hk : k ∈ l.map leadKey) (hks : k ∉ seen) :
    ∃ r ∈ dropDupAux seen l, leadKey r = k := by
  induction l generalizing seen with
  | nil => simp at hk
  | cons y ys ih =>
    simp only [List.map_cons, List.mem_cons] at hk
    simp only [dropDupAux]
    by_cases h : leadKey y ∈ seen
    · rw [if_pos h]
      rcases hk with hk | hk
      · exact absurd (by rw [hk]; exact h) hks
      · exact ih hk hks
    · rw [if_neg h]
      by_cases hky : k = leadKey y
      · exact ⟨y, List.mem_cons_self _ _, hky.symm⟩
      · rcases hk with hk | hk
        · exact absurd hk hky
        · obtain ⟨r, hr, hrk⟩ := ih hk
            (fun hm => (List.mem_cons.mp hm).elim hky hks)
          exact ⟨r, List.mem_cons_of_mem _ hr, hrk⟩

/-- A list whose keys are fresh and pairwise distinct passes the scan
unchanged. -/
theorem dropDupAux_eq_self {seen : List (String × String × String)} {l : List Lead}
    (hseen : ∀ x ∈ l, leadKey x ∉ seen) (hnd : (l.map leadKey).Nodup) :
    dropDupAux seen l = l := by
  induction l generalizing seen with
  | nil => rfl
  | cons y ys ih =>
    simp only [List.map_cons, List.nodup_cons] at hnd
    simp only [dropDupAux]
    rw [if_neg (hseen y (List.mem_cons_self _ _))]
    congr 1
    refine ih ?_ hnd.2
    intro x hx hm
    rcases List.mem_cons.mp hm with h1 | h1
    · exact hnd.1 (h1 ▸ List.mem_map_of_mem leadKey hx)
    · exact hseen x (List.mem_cons_of_mem _ hx) h1

/-- A list all of whose keys were already seen is scanned away entirely. -/
theorem dropDupAux_eq_nil {seen : List (String × String × String)} {l : List Lead}
    (h : ∀ x ∈ l, leadKey x ∈ seen) : dropDupAux seen l = [] := by
  induction l with
  | nil => rfl
  | cons y ys ih =>
    simp only [dropDupAux]
    rw [if_pos (h y (List.mem_cons_self _ _))]
    exact ih (fun x hx => h x (List.mem_cons_of_mem _ hx))

/-- Scanning a key-unique fresh prefix followed by a list of already-covered
keys returns exactly the prefix. -/
theorem dropDupAux_append_absorb {seen : List (String × String × String)}
    {l1 l2 : List Lead} (hnd : (l1.map leadKey).Nodup)
    (hseen : ∀ x ∈ l1, leadKey x ∉ seen)
    (hcov : ∀ y ∈ l2, leadKey y ∈ seen ∨ leadKey y ∈ l1.map leadKey) :
    dropDupAux seen (l1 ++ l2) = l1 := by
  induction l1 generalizing seen with
  | nil =>
    simp only [List.nil_append]
    refine dropDupAux_eq_nil ?_
    intro x hx
    rcases hcov x hx with h | h
    · exact h
    · simp at h
  | cons y ys ih =>
    simp only [List.map_cons, List.nodup_cons] at hnd
    simp only [List.cons_append, dropDupAux]
    rw [if_neg (hseen y (List.mem_cons_self _ _))]
    congr 1
    refine ih hnd.2 ?_ ?_
    · intro x hx hm
      rcases List.mem_cons.mp hm with h1 | h1
      · exact hnd.1 (h1 ▸ List.mem_map_of_mem leadKey hx)
      · exact hseen x (List.mem_cons_of_mem _ hx) h1
    · intro z hz
      rcases hcov z hz with h | h
      · exact Or.inl (List.mem_cons_of_mem _ h)
      · simp only [List.map_cons, List.mem_cons] at h
        rcases h with h | h
        · exact Or.inl (by rw [h]; exact List.mem_cons_self _ _)
        · exact Or.inr h

/-! ### Properties of the date sort -/

/-- The sort step is a permutation of its input. -/
theorem sortByDateDesc_perm (l : List Lead) : (sortByDateDesc l).Perm l := by
  unfold sortByDateDesc
  exact ((List.perm_insertionSort descRel (l.filter hasDate)).append_right _).trans
    (List.filter_append_perm hasDate l)

/-- The NaT rows of the sorted output are exactly the input's NaT rows in
their original order: they bypass the comparison sort entirely. -/
theorem sortByDateDesc_unparseable (l : List Lead) :
    (sortByDateDesc l).filter (fun x => !hasDate x) =
      l.filter (fun x => !hasDate x) := by
  unfold sortByDateDesc
  rw [List.filter_append]
  have h1 : ((l.filter hasDate).insertionSort descRel).filter (fun x => !hasDate x) = [] := by
    rw [List.filter_eq_nil_iff]
    intro a ha
    have := (List.mem_filter.mp
      ((List.perm_insertionSort descRel (l.filter hasDate)).mem_iff.mp ha)).2
    simp [this]
  have h2 : (l.filter (fun x => !hasDate x)).filter (fun x => !hasDate x) =
      l.filter (fun x => !hasDate x) := by
    rw [List.filter_eq_self]
    intro a ha
    exact (List.mem_filter.mp ha).2
  rw [h1, h2, List.nil_append]

/-- The parseable rows of the sorted output form the sorted parseable part. -/
theorem sortByDateDesc_parseable (l : List Lead) :
    (sortByDateDesc l).filter hasDate = (l.filter hasDate).insertionSort descRel := by
  unfold sortByDateDesc
  rw [List.filter_append]
  have h1 : ((l.filter hasDate).insertionSort descRel).filter hasDate =
      (l.filter hasDate).insertionSort descRel := by
    rw [List.filter_eq_self]
    intro a ha
    exact (List.mem_filter.mp
      ((List.perm_insertionSort descRel (l.filter hasDate)).mem_iff.mp ha)).2
  have h2 : (l.filter (fun x => !hasDate x)).filter hasDate = [] := by
    rw [List.filter_eq_nil_iff]
    intro a ha
    have := (List.mem_filter.mp ha).2
    simp at this
    simp [this]
  rw [h1, h2, List.append_nil]

/-- Sorting an already-sorted ledger changes nothing. -/
theorem sortByDateDesc_idem (l : List Lead) :
    sortByDateDesc (sortByDateDesc l) = sortByDateDesc l := by
  conv_lhs => rw [sortByDateDesc]
  rw [sortByDateDesc_parseable, sortByDateDesc_unparseable,
    List.Sorted.insertionSort_eq (List.sorted_insertionSort descRel (l.filter hasDate))]
  rfl

/-- hasDate is false exactly when the date string fails to parse. -/
theorem hasDate_false_iff {l : Lead} : hasDate l = false ↔ parseDate l.date = none := by
  unfold hasDate
  cases parseDate l.date <;> simp

/-- A minimal lead record used in the concrete witnesses below: only the
dedup-key fields and the company are distinguished. -/
def mkLead (e d r c : String) : Lead :=
  { email := e, name := "", company := c, phone := "", country := "", state := "",
    city := "", address := "", date := d, resource := r, source_type := "Other",
    source_file := "leads.csv", imported_at := "2024-01-01 00:00:00" }

/-- C1: merge deduplicates the concatenation existing ++ incoming by the key
(email, date, resource): the merged result has pairwise distinct keys, every
surviving record is literally the first record bearing its key in the
concatenation (prior persisted records win over newly-imported ones), and
every key of the concatenation is still represented. -/
theorem dedup_first_occurrence_wins (existing incoming : List Lead) :
    ((mergeLeads existing incoming).map leadKey).Nodup ∧
    (∀ r ∈ mergeLeads existing incoming,
      (existing ++ incoming).find? (fun z => decide (leadKey z = leadKey r)) = some r) ∧
    (∀ k ∈ (existing ++ incoming).map leadKey,
      ∃ r ∈ mergeLeads existing incoming, leadKey r = k) := by
  have hperm : (mergeLeads existing incoming).Perm
      (dropDuplicatesFirst (existing ++ incoming)) := sortByDateDesc_perm _
  refine ⟨?_, ?_, ?_⟩
  · exact ((hperm.map leadKey).nodup_iff).mpr (keys_dropDupAux_nodup [] _)
  · intro r hr
    exact find?_of_mem_dropDupAux (hperm.mem_iff.mp hr)
  · intro k hk
    obtain ⟨r, hr, hrk⟩ := exists_key_dropDupAux hk (List.not_mem_nil _)
    exact ⟨r, hperm.mem_iff.mpr hr, hrk⟩

/-- Witness for C1 at the spec's own example: the previously persisted
`a@x.com` row survives verbatim (company not updated to "NewCo"). -/
theorem dedup_first_occurrence_wins_witness :
    mkLead "a@x.com" "2024-01-01" "R1" "" ∈
      mergeLeads [mkLead "a@x.com" "2024-01-01" "R1" ""]
        [mkLead "a@x.com" "2024-01-01" "R1" "NewCo", mkLead "b@y.com" "2024-01-02" "R2" ""] ∧
    ([mkLead "a@x.com" "2024-01-01" "R1" ""] ++
        [mkLead "a@x.com" "2024-01-01" "R1" "NewCo", mkLead "b@y.com" "2024-01-02" "R2" ""]).find?
      (fun z => decide (leadKey z = leadKey (mkLead "a@x.com" "2024-01-01" "R1" ""))) =
      some (mkLead "a@x.com" "2024-01-01" "R1" "") :=
  ⟨by decide,
    (dedup_first_occurrence_wins [mkLead "a@x.com" "2024-01-01" "R1" ""]
      [mkLead "a@x.com" "2024-01-01" "R1" "NewCo", mkLead "b@y.com" "2024-01-02" "R2" ""]).2.1
      _ (by decide)⟩

/-- The contract of `sort_values("date_parsed", ascending=False)` at line
352: the output is some descending arrangement of the non-NaT rows followed
by the NaT rows in their original order.  pandas documents the default
`kind="quicksort"` as not stable, so nothing beyond this is guaranteed: the
arrangement chosen inside a group of equal parsed dates is unspecified. -/
def SortValuesAdmissible (l out : List Lead) : Prop :=
  ∃ p : List Lead, p.Perm (l.filter hasDate) ∧ p.Sorted descRel ∧
    out = p ++ l.filter (fun x => !hasDate x)

/-- The functional model `sortByDateDesc` is one admissible refinement of
the sort step's contract. -/
theorem sortByDateDesc_admissible (l : List Lead) :
    SortValuesAdmissible l (sortByDateDesc l) :=
  ⟨(l.filter hasDate).insertionSort descRel,
    List.perm_insertionSort descRel (l.filter hasDate),
    List.sorted_insertionSort descRel (l.filter hasDate), rfl⟩

/-- Two distinct leads sharing the day-granular date string 2024-01-01:
their parsed dates tie, so only the emails distinguish them to the sort. -/
def leadTieA : Lead :=
  mkLead "t1@x.com" "2024-01-01" "R" ""

/-- The second record of the tied pair. -/
def leadTieB : Lead :=
  mkLead "t2@x.com" "2024-01-01" "R" ""

/-- C2 counterexample: the deduplicated ledger [leadTieA, leadTieB] — two
distinct records with equal parsed dates — arises unchanged from the
dedup step of lines 334-343, and the sort contract of lines 351-352 admits
both [leadTieA, leadTieB] and [leadTieB, leadTieA] as outputs, which
differ: with the default unstable sort kind the program does not guarantee
that merging the same batch twice reproduces the same record order, so
same-order idempotence fails as a guarantee at this concrete input. -/
theorem merge_idempotent_counterexample :
    dropDuplicatesFirst [leadTieA, leadTieB] = [leadTieA, leadTieB] ∧
    dateVal leadTieA = dateVal leadTieB ∧ leadTieA ≠ leadTieB ∧
    SortValuesAdmissible [leadTieA, leadTieB] [leadTieA, leadTieB] ∧
    SortValuesAdmissible [leadTieA, leadTieB] [leadTieB, leadTieA] ∧
    ¬ (∀ out1 out2 : List Lead,
        SortValuesAdmissible [leadTieA, leadTieB] out1 →
        SortValuesAdmissible [leadTieA, leadTieB] out2 → out1 = out2) := by
  have hfilter : List.filter hasDate [leadTieA, leadTieB] = [leadTieA, leadTieB] := by
    decide
  have hnone : List.filter (fun x => !hasDate x) [leadTieA, leadTieB] = ([] : List Lead) := by
    decide
  have h1 : SortValuesAdmissible [leadTieA, leadTieB] [leadTieA, leadTieB] := by
    refine ⟨[leadTieA, leadTieB], ?_, by decide, ?_⟩
    · rw [hfilter]
    · rw [hnone, List.append_nil]
  have h2 : SortValuesAdmissible [leadTieA, leadTieB] [leadTieB, leadTieA] := by
    refine ⟨[leadTieB, leadTieA], ?_, by decide, ?_⟩
    · rw [hfilter]
      exact List.Perm.swap leadTieA leadTieB []
    · rw [hnone, List.append_nil]
  refine ⟨by decide, by decide, by decide, h1, h2, ?_⟩
  intro h
  exact absurd (h _ _ h1 h2) (by decide)

/-- C2 amended: merging the same incoming batch twice is a no-op up to the
order of records with equal parsed dates: the deduplication step of the
second run returns the once-merged ledger exactly (no record gained or
lost, every re-imported row absorbed as a duplicate), the twice-merged
ledger is a permutation of the once-merged one, and the records with
unparsable dates appear identically, in the same relative order, in both.
Only the arrangement inside groups of equal parsed dates is left open by
the unstable default sort kind. -/
theorem merge_idempotent_up_to_ties (existing incoming : List Lead) :
    dropDuplicatesFirst (mergeLeads existing incoming ++ incoming) =
      mergeLeads existing incoming ∧
    (mergeLeads (mergeLeads existing incoming) incoming).Perm
      (mergeLeads existing incoming) ∧
    (mergeLeads (mergeLeads existing incoming) incoming).filter (fun x => !hasDate x) =
      (mergeLeads existing incoming).filter (fun x => !hasDate x) := by
  have hperm : (mergeLeads existing incoming).Perm
      (dropDuplicatesFirst (existing ++ incoming)) := sortByDateDesc_perm _
  have hnd : ((mergeLeads existing incoming).map leadKey).Nodup :=
    ((hperm.map leadKey).nodup_iff).mpr (keys_dropDupAux_nodup [] _)
  have hcov : ∀ y ∈ incoming, leadKey y ∈ (mergeLeads existing incoming).map leadKey := by
    intro y hy
    have hk : leadKey y ∈ (existing ++ incoming).map leadKey :=
      List.mem_map_of_mem leadKey (List.mem_append_right _ hy)
    obtain ⟨r, hr, hrk⟩ := exists_key_dropDupAux hk (List.not_mem_nil _)
    exact hrk ▸ List.mem_map_of_mem leadKey (hperm.mem_iff.mpr hr)
  have habs : dropDuplicatesFirst (mergeLeads existing incoming ++ incoming) =
      mergeLeads existing incoming :=
    dropDupAux_append_absorb hnd (fun x _ => List.not_mem_nil _) (fun y hy => Or.inr (hcov y hy))
  have hsecond : mergeLeads (mergeLeads existing incoming) incoming =
      sortByDateDesc (mergeLeads existing incoming) := by
    show sortByDateDesc (dropDuplicatesFirst (mergeLeads existing incoming ++ incoming)) = _
    rw [habs]
  refine ⟨habs, ?_, ?_⟩
  · rw [hsecond]
    exact sortByDateDesc_perm (mergeLeads existing incoming)
  · rw [hsecond]
    exact sortByDateDesc_unparseable (mergeLeads existing incoming)

/-- Order demanded between a merged record and any record after it:
descending by parsed date, with every unparsable date after every parsable
one. -/
def descOK (a b : Lead) : Prop :=
  match parseDate a.date, parseDate b.date with
  | some x, some y => y ≤ x
  | _, none => True
  | none, some _ => False

/-- C3: the merged result is sorted descending by parsed date, every record
whose date fails to parse comes after all records with parseable dates
(`descOK` pairwise), and the unparsable records appear in exactly the order
the deduplicated concatenation gave them — they bypass the comparison sort,
so identical input order yields identical relative order. -/
theorem merge_sorted_desc_unparsable_last (existing incoming : List Lead) :
    (mergeLeads existing incoming).Pairwise descOK ∧
    (mergeLeads existing incoming).filter (fun x => !hasDate x) =
      (dropDuplicatesFirst (existing ++ incoming)).filter (fun x => !hasDate x) := by
  constructor
  · show (sortByDateDesc (dropDuplicatesFirst (existing ++ incoming))).Pairwise descOK
    unfold sortByDateDesc
    rw [List.pairwise_append]
    refine ⟨?_, ?_, ?_⟩
    · refine List.Pairwise.imp_of_mem ?_
        (List.sorted_insertionSort descRel
          ((dropDuplicatesFirst (existing ++ incoming)).filter hasDate))
      intro a b ha hb hab
      have hpa : (parseDate a.date).isSome := by
        have := (List.mem_filter.mp
          ((List.perm_insertionSort descRel _).mem_iff.mp ha)).2
        simpa [hasDate] using this
      have hpb : (parseDate b.date).isSome := by
        have := (List.mem_filter.mp
          ((List.perm_insertionSort descRel _).mem_iff.mp hb)).2
        simpa [hasDate] using this
      obtain ⟨x, hx⟩ := Option.isSome_iff_exists.mp hpa
      obtain ⟨y, hy⟩ := Option.isSome_iff_exists.mp hpb
      have hv : dateVal b ≤ dateVal a := hab
      simp only [dateVal, hx, hy, Option.getD_some] at hv
      simp only [descOK, hx, hy]
      exact hv
    · refine List.pairwise_of_forall_mem_list ?_
      intro a ha b hb
      have hpb : parseDate b.date = none := by
        have := (List.mem_filter.mp hb).2
        exact hasDate_false_iff.mp (by simpa using this)
      cases hpa : parseDate a.date <;> simp [descOK, hpa, hpb]
    · intro a ha b hb
      have hpb : parseDate b.date = none := by
        have := (List.mem_filter.mp hb).2
        exact hasDate_false_iff.mp (by simpa using this)
      cases hpa : parseDate a.date <;> simp [descOK, hpa, hpb]
  · exact sortByDateDesc_unparseable _

/-- C4: source_type is classified from the export file name by
case-insensitive substring match, first match wins, in the fixed priority
order datasheet / data_sheet, whitepaper, quotation, inquiry / contact,
default Other — and every emitted row of a file carries exactly that
classification, regardless of column content. -/
theorem source_type_from_filename (stem sf ts : String) (rows : List Row) :
    (∀ l ∈ normalizeFile stem sf ts rows, l.source_type = classifySourceType stem) ∧
    ((lowerContains stem "datasheet" = true ∨ lowerContains stem "data_sheet" = true) →
      classifySourceType stem = "Datasheet") ∧
    (lowerContains stem "datasheet" = false → lowerContains stem "data_sheet" = false →
      lowerContains stem "whitepaper" = true → classifySourceType stem = "Whitepaper") ∧
    (lowerContains stem "datasheet" = false → lowerContains stem "data_sheet" = false →
      lowerContains stem "whitepaper" = false → lowerContains stem "quotation" = true →
      classifySourceType stem = "Quotation") ∧
    (lowerContains stem "datasheet" = false → lowerContains stem "data_sheet" = false →
      lowerContains stem "whitepaper" = false → lowerContains stem "quotation" = false →
      (lowerContains stem "inquiry" = true ∨ lowerContains stem "contact" = true) →
      classifySourceType stem = "Contact Inquiry") ∧
    (lowerContains stem "datasheet" = false → lowerContains stem "data_sheet" = false →
      lowerContains stem "whitepaper" = false → lowerContains stem "quotation" = false →
      lowerContains stem "inquiry" = false → lowerContains stem "contact" = false →
      classifySourceType stem = "Other") := by
  refine ⟨?_, ?_, ?_, ?_, ?_, ?_⟩
  · intro l hl
    obtain ⟨hl1, -⟩ := List.mem_filter.mp hl
    obtain ⟨row, -, rfl⟩ := List.mem_map.mp hl1
    rfl
  · rintro (h | h) <;> simp [classifySourceType, h]
  · intro h1 h2 h3
    simp [classifySourceType, h1, h2, h3]
  · intro h1 h2 h3 h4
    simp [classifySourceType, h1, h2, h3, h4]
  · rintro h1 h2 h3 h4 (h | h) <;> simp [classifySourceType, h1, h2, h3, h4, h]
  · intro h1 h2 h3 h4 h5 h6
    simp [classifySourceType, h1, h2, h3, h4, h5, h6]

/-- Witness for C4 at the spec's example file name `whitepaper_export`: its
one emitted row is tagged with the file-level classification, which is
`Whitepaper`. -/
theorem source_type_from_filename_witness :
    normalizeRow "Whitepaper" "whitepaper_export.csv" "2024-01-01 00:00:00"
        [("User Email", some "a@x.com")] ∈
      normalizeFile "whitepaper_export" "whitepaper_export.csv" "2024-01-01 00:00:00"
        [[("User Email", some "a@x.com")]] ∧
    (normalizeRow "Whitepaper" "whitepaper_export.csv" "2024-01-01 00:00:00"
        [("User Email", some "a@x.com")]).source_type =
      classifySourceType "whitepaper_export" ∧
    classifySourceType "whitepaper_export" = "Whitepaper" :=
  ⟨by decide,
    (source_type_from_filename "whitepaper_export" "whitepaper_export.csv"
      "2024-01-01 00:00:00" [[("User Email", some "a@x.com")]]).1 _ (by decide),
    (source_type_from_filename "whitepaper_export" "whitepaper_export.csv"
      "2024-01-01 00:00:00" [[("User Email", some "a@x.com")]]).2.2.1
      (by decide) (by decide) (by decide)⟩

/-- The resource rule in the spec's words, for comparison with the code's
`resolveResource`: if a Part Number column exists use its value, else if
White Paper Title exists use its value, else if Product Url exists use the
final path segment of the URL after splitting on "/", else empty. -/
def resourceFromSpec (row : Row) : String :=
  match row.lookup "Part Number" with
  | some v => safe_str v
  | none =>
    match row.lookup "White Paper Title" with
    | some v => safe_str v
    | none =>
      match row.lookup "Product Url" with
      | some v => ⟨(splitChar '/' (safe_str v).data).getLastD []⟩
      | none => ""

/-- C5: the normalizer's resource resolution agrees with the spec's
precedence rule on every row, and on the spec's example URL it yields the
final path segment `laser-42`. -/
theorem resource_resolution :
    (∀ row : Row, resolveResource row = resourceFromSpec row) ∧
    resolveResource [("Product Url", some "https://site.com/products/laser-42")] =
      "laser-42" := by
  constructor
  · intro row
    unfold resolveResource resourceFromSpec rowGet
    cases h1 : row.lookup "Part Number" with
    | some v => simp [h1]
    | none =>
      simp only [h1, Option.isSome_none, Bool.false_eq_true, if_false]
      cases h2 : row.lookup "White Paper Title" with
      | some v => simp [h2]
      | none =>
        simp only [h2, Option.isSome_none, Bool.false_eq_true, if_false]
        cases h3 : row.lookup "Product Url" with
        | some v =>
          simp only [h3, Option.isSome_some, if_true]
          by_cases h4 : safe_str v = ""
          · rw [if_pos h4, h4]
            decide
          · rw [if_neg h4]
        | none => simp [h3]
  · decide

/-- C6 counterexample: with one persisted record and an empty incoming
batch, `consolidate_leads` hits the `if not all_leads: return` early exit
before `to_csv`, so the ledger file is not rewritten — refuting, at this
concrete input, the conjunction "records unchanged and the file is still
rewritten". -/
theorem empty_incoming_counterexample :
    ¬ ((consolidate_leads [mkLead "a@x.com" "2024-01-01" "R1" ""] []).records =
        [mkLead "a@x.com" "2024-01-01" "R1" ""] ∧
       (consolidate_leads [mkLead "a@x.com" "2024-01-01" "R1" ""] []).rewritten = true) := by
  decide

/-- C6 amended: an empty incoming sequence is a no-op — the persisted
records are unchanged — but the ledger file is not rewritten, because the
function returns before writing. -/
theorem empty_incoming_no_op (master : List Lead) :
    consolidate_leads master [] = { records := master, rewritten := false } :=
  rfl

/-- C7, code evaluated at the failing input: a row with no email column at
all is absent from the normalizer's output.  The loop body has no
skipped-row counter to increment — it silently skips the append. -/
theorem missing_email_row_dropped :
    normalizeFile "datasheet_leads" "datasheet_leads.csv" "2024-01-01 00:00:00"
      [[("User Name", some "Alice"), ("Part Number", some "PN-1")]] = [] := by
  decide

/-- C8, code evaluated at the failing input: sweeping a directory holding
`a.csv` (mtime 10) and `b.csv` (mtime 20) with cutoff 100, where unlinking
`a.csv` fails, deletes nothing and aborts: `b.csv` is still eligible
(mtime 20 < 100) yet survives, because the unhandled unlink error
propagates out of the loop. -/
theorem cleanup_abort_on_failure :
    (⟨"b.csv", 20⟩ : FileEntry).mtime < 100 ∧
    cleanup_old_files 100 (fun f => decide (f.fname ≠ "a.csv"))
      [⟨"a.csv", 10⟩, ⟨"b.csv", 20⟩] =
      ([⟨"a.csv", 10⟩, ⟨"b.csv", 20⟩], 0, true) := by
  decide

/-- C9: deduplication compares the `date` field as a raw string: any two
input records with equal email and resource whose date strings differ
textually have distinct dedup keys, so each key keeps a surviving
representative in the merged result and those survivors are distinct
records — date parsing plays no role in survival. -/
theorem dedup_compares_raw_date_strings (existing incoming : List Lead) (a b : Lead)
    (ha : a ∈ existing ++ incoming) (hb : b ∈ existing ++ incoming)
    (_hemail : a.email = b.email) (_hres : a.resource = b.resource)
    (hdate : a.date ≠ b.date) :
    (∃ x ∈ mergeLeads existing incoming, leadKey x = leadKey a) ∧
    (∃ y ∈ mergeLeads existing incoming, leadKey y = leadKey b) ∧
    (∀ x ∈ mergeLeads existing incoming, ∀ y ∈ mergeLeads existing incoming,
      leadKey x = leadKey a → leadKey y = leadKey b → x ≠ y) := by
  have hperm : (mergeLeads existing incoming).Perm
      (dropDuplicatesFirst (existing ++ incoming)) := sortByDateDesc_perm _
  have hrep : ∀ c : Lead, c ∈ existing ++ incoming →
      ∃ x ∈ mergeLeads existing incoming, leadKey x = leadKey c := by
    intro c hc
    obtain ⟨r, hr, hrk⟩ := exists_key_dropDupAux
      (List.mem_map_of_mem leadKey hc) (List.not_mem_nil _)
    exact ⟨r, hperm.mem_iff.mpr hr, hrk⟩
  refine ⟨hrep a ha, hrep b hb, ?_⟩
  intro x _ y _ hxa hyb hxy
  apply hdate
  have : leadKey a = leadKey b := by rw [← hxa, ← hyb, hxy]
  exact congrArg (fun k => k.2.1) this

/-- Witness for C9: the two date strings `2024-01-01` and
`2024-01-01 00:00:00` parse to the very same instant yet differ textually,
so both records survive the merge as distinct entries. -/
theorem dedup_compares_raw_date_strings_witness :
    parseDate "2024-01-01" = parseDate "2024-01-01 00:00:00" ∧
    ((∃ x ∈ mergeLeads [] [mkLead "a@x.com" "2024-01-01" "R1" "",
          mkLead "a@x.com" "2024-01-01 00:00:00" "R1" ""],
        leadKey x = leadKey (mkLead "a@x.com" "2024-01-01" "R1" "")) ∧
      (∃ y ∈ mergeLeads [] [mkLead "a@x.com" "2024-01-01" "R1" "",
          mkLead "a@x.com" "2024-01-01 00:00:00" "R1" ""],
        leadKey y = leadKey (mkLead "a@x.com" "2024-01-01 00:00:00" "R1" "")) ∧
      (∀ x ∈ mergeLeads [] [mkLead "a@x.com" "2024-01-01" "R1" "",
          mkLead "a@x.com" "2024-01-01 00:00:00" "R1" ""],
        ∀ y ∈ mergeLeads [] [mkLead "a@x.com" "2024-01-01" "R1" "",
          mkLead "a@x.com" "2024-01-01 00:00:00" "R1" ""],
        leadKey x = leadKey (mkLead "a@x.com" "2024-01-01" "R1" "") →
        leadKey y = leadKey (mkLead "a@x.com" "2024-01-01 00:00:00" "R1" "") →
        x ≠ y)) :=
  ⟨by decide,
    dedup_compares_raw_date_strings []
      [mkLead "a@x.com" "2024-01-01" "R1" "", mkLead "a@x.com" "2024-01-01 00:00:00" "R1" ""]
      (mkLead "a@x.com" "2024-01-01" "R1" "")
      (mkLead "a@x.com" "2024-01-01 00:00:00" "R1" "")
      (by decide) (by decide) rfl rfl (by decide)⟩

/-- C10: for every canonical field, the alias fallback fires only when the
higher-priority column is absent from the row: whenever the primary alias
column is present — whatever its cell holds, including blank or NaN — the
resolved value is exactly `safe_str` of that cell, so the lower-priority
alias is never consulted.  This is stated for each resolver of the
normalizer (email, name, company, phone — both of its fallback levels —
country, state, city, address, date, and the presence-keyed resource
chain); concretely, a row with a blank `User Email` and a non-empty `email`
resolves to the empty string and is dropped from the normalizer's output. -/
theorem alias_fallback_only_when_absent :
    (∀ (row : Row) (v : Option String), row.lookup "User Email" = some v →
      resolveEmail row = safe_str v) ∧
    (∀ (row : Row) (v : Option String), row.lookup "User Name" = some v →
      resolveName row = safe_str v) ∧
    (∀ (row : Row) (v : Option String), row.lookup "User Company" = some v →
      resolveCompany row = safe_str v) ∧
    (∀ (row : Row) (v : Option String), row.lookup "User Telephone" = some v →
      resolvePhone row = safe_str v) ∧
    (∀ (row : Row) (v : Option String), row.lookup "User Telephone" = none →
      row.lookup "telephone" = some v → resolvePhone row = safe_str v) ∧
    (∀ (row : Row) (v : Option String), row.lookup "User Country" = some v →
      resolveCountry row = safe_str v) ∧
    (∀ (row : Row) (v : Option String), row.lookup "User State" = some v →
      resolveState row = safe_str v) ∧
    (∀ (row : Row) (v : Option String), row.lookup "User City" = some v →
      resolveCity row = safe_str v) ∧
    (∀ (row : Row) (v : Option String), row.lookup "User Address" = some v →
      resolveAddress row = safe_str v) ∧
    (∀ (row : Row) (v : Option String), row.lookup "Downloaded On" = some v →
      resolveDate row = safe_str v) ∧
    (∀ (row : Row) (v : Option String), row.lookup "Part Number" = some v →
      resolveResource row = safe_str v) ∧
    (∀ (row : Row) (v : Option String), row.lookup "Part Number" = none →
      row.lookup "White Paper Title" = some v → resolveResource row = safe_str v) ∧
    resolveEmail [("User Email", some ""), ("email", some "x@y.com")] = "" ∧
    normalizeFile "contact_leads" "contact_leads.csv" "2024-01-01 00:00:00"
      [[("User Email", some ""), ("email", some "x@y.com")]] = [] := by
  refine ⟨?_, ?_, ?_, ?_, ?_, ?_, ?_, ?_, ?_, ?_, ?_, ?_, by decide, by decide⟩
  · intro row v h
    simp [resolveEmail, rowGet, h]
  · intro row v h
    simp [resolveName, rowGet, h]
  · intro row v h
    simp [resolveCompany, rowGet, h]
  · intro row v h
    simp [resolvePhone, rowGet, h]
  · intro row v h1 h2
    simp [resolvePhone, rowGet, h1, h2]
  · intro row v h
    simp [resolveCountry, rowGet, h]
  · intro row v h
    simp [resolveState, rowGet, h]
  · intro row v h
    simp [resolveCity, rowGet, h]
  · intro row v h
    simp [resolveAddress, rowGet, h]
  · intro row v h
    simp [resolveDate, rowGet, h]
  · intro row v h
    simp [resolveResource, rowGet, h]
  · intro row v h1 h2
    simp [resolveResource, rowGet, h1, h2]

/-- Witness for C10: applying the primary-column rule to the concrete row
with a blank `User Email` cell and a non-empty `email` cell. -/
theorem alias_fallback_only_when_absent_witness :
    ([("User Email", some ""), ("email", some "x@y.com")] : Row).lookup "User Email" =
      some (some "") ∧
    resolveEmail [("User Email", some ""), ("email", some "x@y.com")] =
      safe_str (some "") :=
  ⟨by decide, alias_fallback_only_when_absent.1 _ (some "") (by decide)⟩
